import Mathlib

/-!
Shallow embedding of the framebuffer compositing engine of the Nokia 5110
LCD driver (LcdDriver.hpp): the page-span computation `find_affected_rows`,
the population count `count_bits`, the glyph bit re-alignment `shift_data`,
the framebuffer merge `write_to_buffer`, the placement entry points
`put_char_xy` and `print_buffer`, and `clear`.

Byte arrays of the C code are modelled as total functions `Nat → Nat`
holding values below 256; machine-integer truncation is made explicit with
`% 256` at the points where the C code assigns to a `uint8_t`.  A glyph's
`data` pointer is modelled as a total function on `Nat`: indices past the
glyph's own extent stand for whatever bytes follow the glyph in memory, so
an out-of-bounds read of the C code is visible as a dependence on those
indices.
-/

namespace Nokia5110

/-- Display width in pixel columns (LcdDriver.hpp, `LCD_WIDTH`). -/
def LCD_WIDTH : Nat := 84

/-- Display height in pixel rows (LcdDriver.hpp, `LCD_HEIGHT`). -/
def LCD_HEIGHT : Nat := 48

/-- Framebuffer byte count, `LCD_WIDTH * LCD_HEIGHT / 8 = 504`. -/
def LCD_SIZE : Nat := LCD_WIDTH * LCD_HEIGHT / 8

/-- Mode tag of a command-mode bus write (`LCD_COMMAND`). -/
def LCD_COMMAND : Nat := 0

/-- Mode tag of a data-mode bus write (`LCD_DATA`). -/
def LCD_DATA : Nat := 1

/-- C array cell assignment; arrays are modelled as total functions from
byte index to byte value. -/
def upd (g : Nat → Nat) (i v : Nat) : Nat → Nat := fun q => if q = i then v else g q

/-- The affected-pages bitmask of `LcdDriver::find_affected_rows`.  First
loop: `for (i = 0; i < LCD_HEIGHT; i += 8)` marking the page containing the
start row and the page satisfying the code's end-row test
`(y + char_height - 1) < i + 8 && (y + char_height) >= i`; second loop sets
every page strictly between `y/8 + 1` and `(y + char_height - 1)/8`. -/
def find_affected_rows (y char_height : Nat) : Nat :=
  let a :=
    (List.range (LCD_HEIGHT / 8)).foldl
      (fun acc k =>
        let i := 8 * k
        let acc1 := if y < i + 8 ∧ i ≤ y then acc ||| (1 <<< (i / 8)) else acc
        if y + char_height - 1 < i + 8 ∧ i ≤ y + char_height then
          acc1 ||| (1 <<< (i / 8))
        else acc1)
      0
  (List.range' (y / 8 + 1) ((y + char_height - 1) / 8 - (y / 8 + 1))).foldl
    (fun acc i => acc ||| (1 <<< i)) a

/-- Population count of an 8-bit value, `LcdDriver::count_bits`. -/
def count_bits (n : Nat) : Nat :=
  (List.range 8).foldl (fun bc i => if n &&& (1 <<< i) ≠ 0 then bc + 1 else bc) 0

/-- Iteration order of the carry loop of `shift_data`:
`for (j = bit_count - 1; j > 0; j--)` runs j over `[m, m-1, ..., 1]`
with `m = bit_count - 1`. -/
def jlist (m : Nat) : List Nat := ((List.range m).reverse).map (fun j => j + 1)

/-- One iteration of the carry loop of `LcdDriver::shift_data`
(the body of the inner `j` loop of the `bit_count != 1` branch):
`new_data[i + j*w] |= data[i + (j-1)*w] >> (8 - shift);`
then `new_data[i + (j-1)*w] |= data[i + (j-1)*w] << shift;`. -/
def carryStep (data : Nat → Nat) (char_width shift_value i : Nat)
    (nd : Nat → Nat) (j : Nat) : Nat → Nat :=
  let nd1 := upd nd (i + j * char_width)
    ((nd (i + j * char_width) |||
      ((data (i + (j - 1) * char_width) % 256) >>> (8 - shift_value))) % 256)
  upd nd1 (i + (j - 1) * char_width)
    ((nd1 (i + (j - 1) * char_width) |||
      (((data (i + (j - 1) * char_width) % 256) <<< shift_value) % 256)) % 256)

/-- `LcdDriver::shift_data`.  Three branches exactly as in the source:
`shift_value == 0` copies, `bit_count != 1` runs the carry loop, and the
single-page branch stores `data[i] >> shift_value`.  The output array is
stack-initialized to zero at the call sites (`new_data[...]{0x00}`), hence
the `fun _ => 0` start. -/
def shift_data (data : Nat → Nat) (char_width shift_value bit_count : Nat) : Nat → Nat :=
  if shift_value = 0 then
    (List.range char_width).foldl
      (fun nd i =>
        (List.range bit_count).foldl
          (fun nd j => upd nd (i + j * char_width) (data (i + j * char_width) % 256)) nd)
      (fun _ => 0)
  else if bit_count ≠ 1 then
    (List.range char_width).foldl
      (fun nd i => (jlist (bit_count - 1)).foldl (carryStep data char_width shift_value i) nd)
      (fun _ => 0)
  else
    (List.range char_width).foldl
      (fun nd i => upd nd i ((data i % 256) >>> shift_value))
      (fun _ => 0)

/-- `LcdDriver::write_to_buffer`.  Walks the set bits of `affected_rows`
from bit 7 down (the C scan `for (j = 7; j > -1; j--)` with `row = 0` when
no bit is set), clears the found bit, and merges one row of `new_data`
(rows consumed last-first via `new_data_row = bit_count - 1 - i`) into the
buffer.  The two `if` statements of the C cell update are sequential — the
`else` binds only to the second `if` — which this definition reproduces. -/
def write_to_buffer (inverttext : Bool) (x affected_rows : Nat) (new_data : Nat → Nat)
    (char_width bit_count : Nat) (char_mode : Bool) (buffer : Nat → Nat) : Nat → Nat :=
  ((List.range bit_count).foldl
    (fun st i =>
      let rows := st.1
      let buf := st.2
      let row := (((List.range 8).reverse).find? (fun j => (rows &&& (1 <<< j)) != 0)).getD 0
      let rows2 := rows &&& ((1 <<< row) ^^^ 255)
      let ndr := bit_count - 1 - i
      let buf2 := (List.range char_width).foldl
        (fun b j =>
          let v := new_data (j + ndr * char_width) % 256
          let c1 := if inverttext && char_mode then
              (b (x + row * LCD_WIDTH + j) ||| (v ^^^ 255)) % 256
            else b (x + row * LCD_WIDTH + j)
          let c2 := if inverttext && !char_mode then (c1 &&& (v ^^^ 255)) % 256
            else (c1 ||| v) % 256
          upd b (x + row * LCD_WIDTH + j) c2)
        buf
      (rows2, buf2))
    (affected_rows % 256, buffer)).2

/-- The glyph argument of `LcdDriver::put_char_xy`; fields as used there
(`c.char_width`, `c.char_height`, `c.data`).  `data` is the glyph's byte
pointer: indices past the glyph's own bytes model the adjacent memory the
C code would read on an out-of-bounds access. -/
structure custom_char where
  char_width : Nat
  char_height : Nat
  data : Nat → Nat

/-- `LcdDriver::put_char_xy` up to the framebuffer (the trailing
`refresh_screen()` only transmits the buffer and does not change it). -/
def put_char_xy (inverttext : Bool) (c : custom_char) (x y : Nat)
    (buffer : Nat → Nat) : Nat → Nat :=
  let shift_value := y % 8
  let affected_rows := find_affected_rows y c.char_height
  let bit_count := count_bits affected_rows
  let new_data := shift_data c.data c.char_width shift_value bit_count
  write_to_buffer inverttext x affected_rows new_data c.char_width bit_count false buffer

/-- The character substitution and font-table index shared verbatim by
`LcdDriver::print_buffer` and `LcdDriver::print`:
`char c = *str; if (c < ' ' || c > '~') { c = ' '; } ... fontData[c - ' ']`.
`c` ranges over the values of a C `char` (signed, so below-space and
above-tilde bytes are both caught by the test). -/
def font_index (c : Int) : Nat :=
  ((if c < 32 ∨ 126 < c then (32 : Int) else c) - 32).toNat

/-- One iteration of the `while (*str)` loop of `LcdDriver::print_buffer`
up to the framebuffer: `char_width = N`, `shift_value = y % 8`,
`affected_rows = find_affected_rows(y, fontData[0].size())` where
`fontData[0].size()` is `N`, the column count; then `shift_data` and
`write_to_buffer(..., char_mode = false)`. -/
def print_buffer_step (inverttext : Bool) (N : Nat) (fontData : Nat → Nat → Nat)
    (c : Int) (x y : Nat) (buffer : Nat → Nat) : Nat → Nat :=
  let char_width := N
  let shift_value := y % 8
  let affected_rows := find_affected_rows y N
  let bit_count := count_bits affected_rows
  let new_data := shift_data (fontData (font_index c)) char_width shift_value bit_count
  write_to_buffer inverttext x affected_rows new_data char_width bit_count false buffer

/-- Comparison definition following the claim's alternative wording: the
same per-character step but passing the glyph's pixel height `H` — instead
of the column count — to `find_affected_rows`. -/
def print_buffer_step_height (inverttext : Bool) (N H : Nat) (fontData : Nat → Nat → Nat)
    (c : Int) (x y : Nat) (buffer : Nat → Nat) : Nat → Nat :=
  let char_width := N
  let shift_value := y % 8
  let affected_rows := find_affected_rows y H
  let bit_count := count_bits affected_rows
  let new_data := shift_data (fontData (font_index c)) char_width shift_value bit_count
  write_to_buffer inverttext x affected_rows new_data char_width bit_count false buffer

/-- `LcdDriver::clear`: for every byte index, first `write(0x00, LCD_DATA)`
on the bus, then `buffer[i] = 0x00`.  Returns the new buffer together with
the bus trace, one `(byte, mode)` entry per `write` call. -/
def clear (buffer : Nat → Nat) : (Nat → Nat) × List (Nat × Nat) :=
  (List.range LCD_SIZE).foldl
    (fun st i => (upd st.1 i 0, st.2 ++ [(0, LCD_DATA)]))
    (buffer, [])

/-- Claim C1: the claim asserts
`count_bits (find_affected_rows y h) = ceil((y % 8 + h) / 8)` for all
valid `y`, `h`, and in particular a span of exactly `h/8` pages when
`y % 8 = 0` and `8 ∣ h`.  The code disagrees already at `y = 0`, `h = 8`:
its end-row test `(y + h - 1 < i + 8) && (y + h >= i)` also fires at
`i = y + h` when `y + h` is a multiple of 8, marking the extra page 1, so
the bitmask is `0b11` with 2 set bits while `ceil((0 + 8)/8) = 1`. -/
theorem find_affected_rows_extra_page :
    count_bits (find_affected_rows 0 8) = 2
    ∧ find_affected_rows 0 8 = 3
    ∧ (0 % 8 + 8 + 7) / 8 = 1 := by decide

/-- Claim C2: the claim asserts that with `inverttext` set and
`char_mode = true` a cell is updated as `buffer |= ~shifted_byte` and
nothing else.  The code's first `if` has no `else`, so after
`buffer |= ~new_data` the second `if`'s `else` branch also runs
`buffer |= new_data`: starting from `0x00` with shifted byte `0x0F` the
cell becomes `0xFF`, not `~0x0F = 0xF0`. -/
theorem invert_char_mode_dangling_else :
    write_to_buffer true 0 1 (fun _ => 15) 1 1 true (fun _ => 0) 0 = 255
    ∧ (0 ||| (15 ^^^ 255)) % 256 = 240 := by decide

/-- Claim C3: the claim asserts that a placement at `x = 84` (the display
width) reports `OutOfBounds` and leaves the framebuffer unmodified.  The
code validates nothing and has no error channel: placing a 5-wide, 8-tall
all-ones glyph at `(84, 0)` on a cleared buffer ORs `0xFF` into
`buffer[84]` — byte 84 is page 1, column 0, an unrelated in-range cell of
the 504-byte framebuffer. -/
theorem no_bounds_check_writes :
    put_char_xy false ⟨5, 8, fun _ => 255⟩ LCD_WIDTH 0 (fun _ => 0) LCD_WIDTH = 255 := by
  decide

/-- Claim C4: the claim asserts that the 5-wide, 8-tall all-ones glyph
placed at `(10, 0)` on a cleared buffer sets exactly page 0, columns
10–14, to `0xFF`.  Because `find_affected_rows 0 8 = 0b11` (two pages),
`shift_data` copies a second page-row from past the end of the glyph's
5 bytes (here modelled as the adjacent memory bytes, all `0xFF`) and
`write_to_buffer` ORs it into page 1: byte `10 + 1 * 84 = 94` becomes
`0xFF` instead of staying `0x00`.  The page-0 byte at column 10 is set as
expected. -/
theorem page_aligned_blit_touches_page1 :
    put_char_xy false ⟨5, 8, fun _ => 255⟩ 10 0 (fun _ => 0) 10 = 255
    ∧ put_char_xy false ⟨5, 8, fun _ => 255⟩ 10 0 (fun _ => 0) (10 + 1 * LCD_WIDTH) = 255 := by
  decide

/-- Claim C6 counterexample: the claim asserts that for `shift_value ∈
[1,7]` and `bit_count > 1` every destination row `j` from the last down
to 1 equals `(source[j] << shift) ||| (source[j-1] >> (8 - shift))`.  For
the last row this is false: with all-`0xFF` source data, one column,
shift 1 and `bit_count = 2`, the code leaves row 1 equal to
`0xFF >> 7 = 1`, while the claimed formula gives
`(0xFF << 1) % 256 ||| (0xFF >> 7) = 0xFF`. -/
theorem shift_carry_last_row_cex :
    shift_data (fun _ => 255) 1 1 2 1 = 1
    ∧ ((255 <<< 1) % 256 ||| (255 >>> 7)) = 255
    ∧ shift_data (fun _ => 255) 1 1 2 1 ≠ ((255 <<< 1) % 256 ||| (255 >>> 7)) := by decide

/-- Claim C10: `print_buffer` computes its touched-page bitmask as
`find_affected_rows(y, fontData[0].size())`, i.e. with the glyph's column
count `N` as the height argument.  The first conjunct states that the
embedded step coincides, for every input, with the comparison definition
that receives the column count in the height position; the remaining
conjuncts show at a 5-column font of pixel height 8 (all-ones bytes,
placed at `(0,0)` on a cleared buffer) that passing the true pixel height
8 instead would also touch page 1 (`buffer[84] = 0xFF`), while the code's
width-driven mask leaves it at 0 — so it is genuinely the column count,
not the pixel height, that feeds the mask. -/
theorem print_buffer_width_as_height :
    (∀ (invt : Bool) (N : Nat) (font : Nat → Nat → Nat) (c : Int) (x y : Nat)
        (buf : Nat → Nat),
      print_buffer_step invt N font c x y buf
        = print_buffer_step_height invt N N font c x y buf)
    ∧ print_buffer_step false 5 (fun _ _ => 255) 32 0 0 (fun _ => 0) 84 = 0
    ∧ print_buffer_step_height false 5 8 (fun _ _ => 255) 32 0 0 (fun _ => 0) 84 = 255 := by
  refine ⟨fun _ _ _ _ _ _ _ => rfl, by decide, by decide⟩

/-- Evaluating `upd` at the written index. -/
lemma upd_self (g : Nat → Nat) (i v : Nat) : upd g i v i = v := by simp [upd]

/-- Evaluating `upd` away from the written index. -/
lemma upd_other (g : Nat → Nat) (i v q : Nat) (h : q ≠ i) : upd g i v q = g q := by
  simp [upd, h]

/-- A fold whose every step leaves the point `q` unchanged leaves `q`
unchanged. -/
lemma foldl_preserves {α : Type} (step : (Nat → Nat) → α → (Nat → Nat)) (q : Nat) :
    ∀ (l : List α), (∀ (g : Nat → Nat) (b : α), b ∈ l → step g b q = g q) →
      ∀ g : Nat → Nat, (l.foldl step g) q = g q := by
  intro l
  induction l with
  | nil => intro _ g; rfl
  | cons b l ih =>
      intro h g
      rw [List.foldl_cons]
      rw [ih (fun g2 c hc => h g2 c (List.mem_cons_of_mem b hc)) (step g b)]
      exact h g b (List.mem_cons_self b l)

/-- If exactly one element `a` of a duplicate-free list acts on the point
`q`, transforming its value by `φ`, and every other element leaves `q`
unchanged, the fold transforms the value at `q` by `φ`. -/
lemma foldl_single_owner {α : Type} (step : (Nat → Nat) → α → (Nat → Nat)) (q : Nat)
    (a : α) (φ : Nat → Nat) (hown : ∀ g : Nat → Nat, step g a q = φ (g q)) :
    ∀ (l : List α), a ∈ l → l.Nodup →
      (∀ (g : Nat → Nat) (b : α), b ∈ l → b ≠ a → step g b q = g q) →
      ∀ g : Nat → Nat, (l.foldl step g) q = φ (g q) := by
  intro l
  induction l with
  | nil => intro h; cases h
  | cons b l ih =>
      intro hmem hnodup hother g
      rw [List.foldl_cons]
      rcases List.mem_cons.mp hmem with hab | hmem2
      · subst hab
        have hnotin : a ∉ l := (List.nodup_cons.mp hnodup).1
        have hpres : ∀ (g2 : Nat → Nat) (c : α), c ∈ l → step g2 c q = g2 q := by
          intro g2 c hc
          exact hother g2 c (List.mem_cons_of_mem a hc)
            (fun he => hnotin (he ▸ hc))
        rw [foldl_preserves step q l hpres (step g a)]
        exact hown g
      · have hba : b ≠ a := by
          intro he
          exact (List.nodup_cons.mp hnodup).1 (he ▸ hmem2)
        have hstep : step g b q = g q :=
          hother g b (List.mem_cons_self b l) hba
        rw [ih hmem2 (List.nodup_cons.mp hnodup).2
          (fun g2 c hc hca => hother g2 c (List.mem_cons_of_mem b hc) hca) (step g b)]
        rw [hstep]

/-- A fold over a pair state whose components never interact splits into
two independent folds. -/
lemma foldl_pair {α β γ : Type} (step : β × γ → α → β × γ) (F : β → α → β)
    (G : γ → α → γ) (hstep : ∀ st x, step st x = (F st.1 x, G st.2 x)) :
    ∀ (l : List α) (b : β) (c : γ), l.foldl step (b, c) = (l.foldl F b, l.foldl G c) := by
  intro l
  induction l with
  | nil => intro b c; rfl
  | cons a l ih =>
      intro b c
      rw [List.foldl_cons, hstep, List.foldl_cons, List.foldl_cons]
      exact ih (F b a) (G c a)

/-- A fold that appends one fixed element per step appends a replicate. -/
lemma foldl_append_gen {α β : Type} (e : α) :
    ∀ (l : List β) (t : List α),
      (l.foldl (fun acc _ => acc ++ [e]) t) = t ++ List.replicate l.length e := by
  intro l
  induction l with
  | nil => intro t; simp
  | cons b l ih =>
      intro t
      rw [List.foldl_cons, ih]
      simp [List.replicate_succ]

/-- Two distinct page-rows of the same column have distinct buffer
indices. -/
lemma row_ne {char_width : Nat} (h : 0 < char_width) {i a b : Nat} (hab : a ≠ b) :
    i + a * char_width ≠ i + b * char_width := by
  intro he
  exact hab (Nat.eq_of_mul_eq_mul_right h (Nat.add_left_cancel he))

/-- Cells of distinct columns never share a buffer index. -/
lemma index_inj {char_width i1 i2 a b : Nat} (h1 : i1 < char_width) (h2 : i2 < char_width)
    (h : i1 + a * char_width = i2 + b * char_width) : i1 = i2 := by
  have e1 : (i1 + a * char_width) % char_width = i1 := by
    rw [Nat.add_mul_mod_self_right]
    exact Nat.mod_eq_of_lt h1
  have e2 : (i2 + b * char_width) % char_width = i2 := by
    rw [Nat.add_mul_mod_self_right]
    exact Nat.mod_eq_of_lt h2
  rw [h, e2] at e1
  exact e1.symm

/-- Claim C5: the `shift_value = 0` branch of `shift_data` is a pure
identity copy: every output byte `new_data[i + j * char_width]` with
`i < char_width`, `j < bit_count` equals the input byte at the same
index, with no bit movement. -/
theorem shift_zero_copy (data : Nat → Nat) (char_width bit_count i j : Nat)
    (hi : i < char_width) (hj : j < bit_count)
    (hb : data (i + j * char_width) < 256) :
    shift_data data char_width 0 bit_count (i + j * char_width)
      = data (i + j * char_width) := by
  have hcw : 0 < char_width := Nat.lt_of_le_of_lt (Nat.zero_le i) hi
  have e : shift_data data char_width 0 bit_count
      = (List.range char_width).foldl
          (fun nd i2 =>
            (List.range bit_count).foldl
              (fun nd j2 => upd nd (i2 + j2 * char_width) (data (i2 + j2 * char_width) % 256))
              nd)
          (fun _ => 0) := by
    unfold shift_data
    rw [if_pos rfl]
  rw [e]
  have hinner : ∀ (i2 : Nat), i2 < char_width → ∀ g : Nat → Nat,
      ((List.range bit_count).foldl
        (fun nd j2 => upd nd (i2 + j2 * char_width) (data (i2 + j2 * char_width) % 256)) g)
        (i + j * char_width)
      = if i2 = i then data (i + j * char_width) % 256 else g (i + j * char_width) := by
    intro i2 hi2 g
    by_cases hii : i2 = i
    · subst hii
      rw [if_pos rfl]
      refine foldl_single_owner _ (i2 + j * char_width) j
        (fun _ => data (i2 + j * char_width) % 256) ?_ (List.range bit_count)
        (List.mem_range.mpr hj) (List.nodup_range bit_count) ?_ g
      · intro g2
        exact upd_self g2 (i2 + j * char_width) (data (i2 + j * char_width) % 256)
      · intro g2 b _ hbj
        exact upd_other g2 (i2 + b * char_width) (data (i2 + b * char_width) % 256)
          (i2 + j * char_width) (row_ne hcw (fun he => hbj he.symm))
    · rw [if_neg hii]
      refine foldl_preserves _ (i + j * char_width) (List.range bit_count) ?_ g
      intro g2 b _
      refine upd_other g2 (i2 + b * char_width) (data (i2 + b * char_width) % 256)
        (i + j * char_width) ?_
      intro he
      exact hii (index_inj hi2 hi he.symm)
  have houter :
      ((List.range char_width).foldl
        (fun nd i2 =>
          (List.range bit_count).foldl
            (fun nd j2 => upd nd (i2 + j2 * char_width) (data (i2 + j2 * char_width) % 256))
            nd)
        (fun _ => 0)) (i + j * char_width)
      = data (i + j * char_width) % 256 := by
    refine foldl_single_owner _ (i + j * char_width) i
      (fun _ => data (i + j * char_width) % 256) ?_ (List.range char_width)
      (List.mem_range.mpr hi) (List.nodup_range char_width) ?_ (fun _ => 0)
    · intro g
      rw [hinner i hi g, if_pos rfl]
    · intro g b hbmem hbi
      rw [hinner b (List.mem_range.mp hbmem) g, if_neg hbi]
  rw [houter]
  exact Nat.mod_eq_of_lt hb

/-- Claim C5 witness: the copy branch at a concrete input. -/
theorem shift_zero_copy_witness :
    shift_data (fun n => n + 10) 3 0 2 4 = 14 :=
  shift_zero_copy (fun n => n + 10) 3 2 1 1 (by decide) (by decide) (by decide)

/-- Claim C7: for `shift_value ∈ [1,7]` and `bit_count = 1`, `shift_data`
produces for each column `i < char_width` the single byte
`data[i] >> shift_value`, and nothing else: the bits shifted out are
dropped and no carry byte is emitted past the `char_width` output bytes. -/
theorem shift_single_row (data : Nat → Nat) (char_width shift_value i : Nat)
    (hs1 : 1 ≤ shift_value) (hs7 : shift_value ≤ 7) (hi : i < char_width)
    (hb : data i < 256) :
    shift_data data char_width shift_value 1 i = data i >>> shift_value
    ∧ ∀ q, char_width ≤ q → shift_data data char_width shift_value 1 q = 0 := by
  have hcw : 0 < char_width := Nat.lt_of_le_of_lt (Nat.zero_le i) hi
  have e : shift_data data char_width shift_value 1
      = (List.range char_width).foldl
          (fun nd i2 => upd nd i2 ((data i2 % 256) >>> shift_value)) (fun _ => 0) := by
    unfold shift_data
    rw [if_neg (by omega), if_neg (by omega)]
  constructor
  · rw [e]
    have h1 : ((List.range char_width).foldl
        (fun nd i2 => upd nd i2 ((data i2 % 256) >>> shift_value)) (fun _ => 0)) i
        = (data i % 256) >>> shift_value := by
      refine foldl_single_owner _ i i (fun _ => (data i % 256) >>> shift_value) ?_
        (List.range char_width) (List.mem_range.mpr hi)
        (List.nodup_range char_width) ?_ (fun _ => 0)
      · intro g
        exact upd_self g i ((data i % 256) >>> shift_value)
      · intro g b _ hbi
        exact upd_other g b ((data b % 256) >>> shift_value) i (fun he => hbi he.symm)
    rw [h1, Nat.mod_eq_of_lt hb]
  · intro q hq
    rw [e]
    refine foldl_preserves _ q (List.range char_width) ?_ (fun _ => 0)
    intro g b hbmem
    refine upd_other g b ((data b % 256) >>> shift_value) q ?_
    have : b < char_width := List.mem_range.mp hbmem
    omega

/-- Claim C7 witness: the single-row branch at a concrete input. -/
theorem shift_single_row_witness :
    shift_data (fun _ => 255) 2 3 1 0 = 31 :=
  (shift_single_row (fun _ => 255) 2 3 0 (by decide) (by decide) (by decide) (by decide)).1

set_option maxRecDepth 8192 in
/-- Claim C9: `clear` writes 0 to every one of the `LCD_SIZE = 504`
framebuffer bytes and, per byte, performs one data-mode bus write of the
byte `0x00` — 504 data bytes in total, a full device flush rather than an
in-memory-only reset. -/
theorem clear_resets_and_flushes (buffer : Nat → Nat) (i : Nat) (hi : i < LCD_SIZE) :
    (clear buffer).1 i = 0
    ∧ (clear buffer).2 = List.replicate LCD_SIZE (0, LCD_DATA) := by
  have hsplit : clear buffer
      = ((List.range LCD_SIZE).foldl (fun g j => upd g j 0) buffer,
         (List.range LCD_SIZE).foldl (fun t _ => t ++ [(0, LCD_DATA)]) []) := by
    unfold clear
    exact foldl_pair _ (fun g j => upd g j 0) (fun t _ => t ++ [(0, LCD_DATA)])
      (fun _ _ => rfl) (List.range LCD_SIZE) buffer []
  rw [hsplit]
  refine ⟨?_, ?_⟩
  · show ((List.range LCD_SIZE).foldl (fun g j => upd g j 0) buffer) i = 0
    refine foldl_single_owner _ i i (fun _ => 0) ?_ (List.range LCD_SIZE)
      (List.mem_range.mpr hi) (List.nodup_range LCD_SIZE) ?_ buffer
    · intro g
      exact upd_self g i 0
    · intro g b _ hbi
      exact upd_other g b 0 i (fun he => hbi he.symm)
  · show ((List.range LCD_SIZE).foldl (fun t _ => t ++ [(0, LCD_DATA)]) [])
        = List.replicate LCD_SIZE (0, LCD_DATA)
    rw [foldl_append_gen (0, LCD_DATA) (List.range LCD_SIZE) []]
    rw [List.length_range, List.nil_append]

/-- Claim C9 witness: clearing an arbitrary nonzero buffer zeroes byte 503
and emits the full 504-byte data-mode trace. -/
theorem clear_resets_and_flushes_witness :
    (clear (fun _ => 171)).1 503 = 0
    ∧ (clear (fun _ => 171)).2 = List.replicate LCD_SIZE (0, LCD_DATA) :=
  clear_resets_and_flushes (fun _ => 171) 503 (by decide)

/-- Claim C8: a character outside the printable range `[' ', '~']`
(i.e. outside `[32, 126]`) is substituted with the space glyph: its font
index is 0, a `print_buffer` step renders it identically to the space
character, and for every character whatsoever the font index stays below
95, the size of a printable-ASCII-keyed table — the font table is never
indexed out of that range.  The identical substitution code appears in
both `print_buffer` and `print`. -/
theorem unsupported_char_renders_space (c : Int) (h : c < 32 ∨ 126 < c) :
    font_index c = 0
    ∧ (∀ (invt : Bool) (N : Nat) (font : Nat → Nat → Nat) (x y : Nat)
        (buf : Nat → Nat),
        print_buffer_step invt N font c x y buf
          = print_buffer_step invt N font 32 x y buf)
    ∧ (∀ c2 : Int, font_index c2 < 95) := by
  have hc : font_index c = 0 := by
    unfold font_index
    rw [if_pos h]
    decide
  have h32 : font_index 32 = 0 := by
    unfold font_index
    rw [if_neg (by omega)]
    decide
  refine ⟨hc, ?_, ?_⟩
  · intro invt N font x y buf
    have hcc : font_index c = font_index 32 := hc.trans h32.symm
    simp only [print_buffer_step]
    rw [hcc]
  · intro c2
    unfold font_index
    by_cases h2 : c2 < 32 ∨ 126 < c2
    · rw [if_pos h2]
      decide
    · rw [if_neg h2]
      omega

/-- Claim C8 witness: the byte 200 (a non-printable character) maps to the
space glyph at font index 0. -/
theorem unsupported_char_renders_space_witness : font_index 200 = 0 :=
  (unsupported_char_renders_space 200 (Or.inr (by decide))).1

/-- Evaluating one carry iteration at the row it carries into. -/
lemma carryStep_at_j (data : Nat → Nat) (char_width shift_value i : Nat)
    (hcw : 0 < char_width) (g : Nat → Nat) (j : Nat) (hj : 1 ≤ j) :
    carryStep data char_width shift_value i g j (i + j * char_width)
      = (g (i + j * char_width) |||
          ((data (i + (j - 1) * char_width) % 256) >>> (8 - shift_value))) % 256 := by
  have hne : i + j * char_width ≠ i + (j - 1) * char_width := row_ne hcw (by omega)
  simp only [carryStep]
  rw [upd_other _ _ _ _ hne, upd_self]

/-- Evaluating one carry iteration at the row it shifts into. -/
lemma carryStep_at_pred (data : Nat → Nat) (char_width shift_value i : Nat)
    (hcw : 0 < char_width) (g : Nat → Nat) (j : Nat) (hj : 1 ≤ j) :
    carryStep data char_width shift_value i g j (i + (j - 1) * char_width)
      = (g (i + (j - 1) * char_width) |||
          (((data (i + (j - 1) * char_width) % 256) <<< shift_value) % 256)) % 256 := by
  have hne : i + (j - 1) * char_width ≠ i + j * char_width := row_ne hcw (by omega)
  simp only [carryStep]
  rw [upd_self, upd_other _ _ _ _ hne]

/-- A carry iteration leaves every other index unchanged. -/
lemma carryStep_other (data : Nat → Nat) (char_width shift_value i : Nat)
    (g : Nat → Nat) (j q : Nat) (h1 : q ≠ i + j * char_width)
    (h2 : q ≠ i + (j - 1) * char_width) :
    carryStep data char_width shift_value i g j q = g q := by
  simp only [carryStep]
  rw [upd_other _ _ _ _ h2, upd_other _ _ _ _ h1]

/-- Unfolding of the carry-loop iteration order. -/
lemma jlist_succ (m : Nat) : jlist (m + 1) = (m + 1) :: jlist m := by
  simp [jlist, List.range_succ]

/-- Characterization of the inner carry loop of `shift_data` for one
column `i`: after running j over `[m, ..., 1]`, row `m` has gained the
downward carry of source row `m-1`, each row `k ∈ [1, m-1]` has gained its
own source row shifted left and the carry of row `k-1`, row 0 has gained
its own source row shifted left, and every other index of the output array
is unchanged. -/
lemma carry_fold_spec (data : Nat → Nat) (char_width shift_value i : Nat)
    (hcw : 0 < char_width) :
    ∀ m : Nat, 1 ≤ m → ∀ g : Nat → Nat,
      (((jlist m).foldl (carryStep data char_width shift_value i) g) (i + m * char_width)
        = (g (i + m * char_width) |||
            ((data (i + (m - 1) * char_width) % 256) >>> (8 - shift_value))) % 256)
      ∧ (∀ k, 1 ≤ k → k < m →
          ((jlist m).foldl (carryStep data char_width shift_value i) g) (i + k * char_width)
            = ((g (i + k * char_width) |||
                (((data (i + k * char_width) % 256) <<< shift_value) % 256)) % 256 |||
               ((data (i + (k - 1) * char_width) % 256) >>> (8 - shift_value))) % 256)
      ∧ (((jlist m).foldl (carryStep data char_width shift_value i) g) i
          = (g i ||| (((data i % 256) <<< shift_value) % 256)) % 256)
      ∧ (∀ q, (∀ k, k ≤ m → q ≠ i + k * char_width) →
          ((jlist m).foldl (carryStep data char_width shift_value i) g) q = g q) := by
  intro m hm
  induction m, hm using Nat.le_induction with
  | base =>
      intro g
      have hj1 : jlist 1 = [1] := by decide
      rw [hj1]
      simp only [List.foldl_cons, List.foldl_nil]
      refine ⟨?_, ?_, ?_, ?_⟩
      · exact carryStep_at_j data char_width shift_value i hcw g 1 (le_refl 1)
      · intro k hk1 hk2
        omega
      · simpa using carryStep_at_pred data char_width shift_value i hcw g 1 (le_refl 1)
      · intro q hq
        exact carryStep_other data char_width shift_value i g 1 q
          (hq 1 (le_refl 1)) (hq 0 (Nat.zero_le 1))
  | succ n hn ih =>
      intro g
      rw [jlist_succ n]
      simp only [List.foldl_cons]
      obtain ⟨ih1, ih2, ih3, ih4⟩ := ih (carryStep data char_width shift_value i g (n + 1))
      have hp1 : 0 < (n + 1) * char_width := Nat.mul_pos (by omega) hcw
      have hp2 : 0 < n * char_width := Nat.mul_pos (by omega) hcw
      have hGm : carryStep data char_width shift_value i g (n + 1) (i + n * char_width)
          = (g (i + n * char_width) |||
              (((data (i + n * char_width) % 256) <<< shift_value) % 256)) % 256 := by
        simpa using carryStep_at_pred data char_width shift_value i hcw g (n + 1) (by omega)
      refine ⟨?_, ?_, ?_, ?_⟩
      · have huntouched : ∀ k, k ≤ n →
            i + (n + 1) * char_width ≠ i + k * char_width :=
          fun k hk => row_ne hcw (by omega)
        rw [ih4 (i + (n + 1) * char_width) huntouched]
        rw [carryStep_at_j data char_width shift_value i hcw g (n + 1) (by omega)]
      · intro k hk1 hk2
        by_cases hkn : k = n
        · subst hkn
          rw [ih1, hGm]
        · have hk3 : k < n := by omega
          have hne1 : i + k * char_width ≠ i + (n + 1) * char_width :=
            row_ne hcw (by omega)
          have hne2 : i + k * char_width ≠ i + n * char_width :=
            row_ne hcw (by omega)
          rw [ih2 k hk1 hk3,
            carryStep_other data char_width shift_value i g (n + 1) (i + k * char_width)
              hne1 hne2]
      · have hne1 : i ≠ i + (n + 1) * char_width := by omega
        have hne2 : i ≠ i + n * char_width := by omega
        rw [ih3, carryStep_other data char_width shift_value i g (n + 1) i hne1 hne2]
      · intro q hq
        rw [ih4 q (fun k hk => hq k (by omega))]
        exact carryStep_other data char_width shift_value i g (n + 1) q
          (hq (n + 1) (le_refl (n + 1))) (hq n (by omega))

/-- Columns other than `i` of the carry branch's outer fold never touch
column `i`'s cells. -/
lemma carry_outer_other (data : Nat → Nat) (char_width shift_value i b : Nat)
    (hi : i < char_width) (hb : b < char_width) (hbi : b ≠ i)
    (m : Nat) (hm : 1 ≤ m) (g : Nat → Nat) (q : Nat)
    (hq : ∃ j, q = i + j * char_width) :
    ((jlist m).foldl (carryStep data char_width shift_value b) g) q = g q := by
  have hcw : 0 < char_width := Nat.lt_of_le_of_lt (Nat.zero_le b) hb
  obtain ⟨j, rfl⟩ := hq
  refine (carry_fold_spec data char_width shift_value b hcw m hm g).2.2.2 _ ?_
  intro k _ he
  exact hbi (index_inj hi hb he).symm

/-- Claim C6 (amended): for `shift_value ∈ [1,7]` and `bit_count ≥ 2` the
carry branch of `shift_data` produces, per column `i < char_width`:
destination row 0 equals `source[0] << shift` (mod 256); every middle row
`j ∈ [1, bit_count-2]` equals
`(source[j] << shift mod 256) ||| (source[j-1] >> (8 - shift))`; and the
LAST row `bit_count-1` receives only the downward carry
`source[bit_count-2] >> (8 - shift)` — no `source[bit_count-1] << shift`
term is OR'd in, contrary to the claim's uniform formula. -/
theorem shift_carry_rows (data : Nat → Nat) (char_width shift_value bit_count i : Nat)
    (hs1 : 1 ≤ shift_value) (hs7 : shift_value ≤ 7) (hbc : 2 ≤ bit_count)
    (hi : i < char_width) :
    shift_data data char_width shift_value bit_count i
        = ((data i % 256) <<< shift_value) % 256
    ∧ (∀ j, 1 ≤ j → j < bit_count - 1 →
        shift_data data char_width shift_value bit_count (i + j * char_width)
          = ((((data (i + j * char_width) % 256) <<< shift_value) % 256) |||
             ((data (i + (j - 1) * char_width) % 256) >>> (8 - shift_value))) % 256)
    ∧ shift_data data char_width shift_value bit_count
        (i + (bit_count - 1) * char_width)
        = (data (i + (bit_count - 2) * char_width) % 256) >>> (8 - shift_value) := by
  have hcw : 0 < char_width := Nat.lt_of_le_of_lt (Nat.zero_le i) hi
  have hm : 1 ≤ bit_count - 1 := by omega
  have e : shift_data data char_width shift_value bit_count
      = (List.range char_width).foldl
          (fun nd i2 =>
            (jlist (bit_count - 1)).foldl (carryStep data char_width shift_value i2) nd)
          (fun _ => 0) := by
    unfold shift_data
    rw [if_neg (by omega), if_pos (by omega)]
  have hmm : ∀ x : Nat, x % 256 % 256 = x % 256 := fun x => Nat.mod_mod_of_dvd x dvd_rfl
  refine ⟨?_, ?_, ?_⟩
  · rw [e]
    have h := foldl_single_owner
      (fun nd i2 =>
        (jlist (bit_count - 1)).foldl (carryStep data char_width shift_value i2) nd)
      i i
      (fun v => (v ||| (((data i % 256) <<< shift_value) % 256)) % 256)
      (fun g =>
        (carry_fold_spec data char_width shift_value i hcw (bit_count - 1) hm g).2.2.1)
      (List.range char_width) (List.mem_range.mpr hi) (List.nodup_range char_width)
      (fun g b hbm hbi =>
        carry_outer_other data char_width shift_value i b hi
          (List.mem_range.mp hbm) hbi (bit_count - 1) hm g i ⟨0, by ring⟩)
      (fun _ => 0)
    rw [h, Nat.zero_or, hmm]
  · intro j hj1 hj2
    rw [e]
    have h := foldl_single_owner
      (fun nd i2 =>
        (jlist (bit_count - 1)).foldl (carryStep data char_width shift_value i2) nd)
      (i + j * char_width) i
      (fun v => ((v ||| (((data (i + j * char_width) % 256) <<< shift_value) % 256)) % 256 |||
          ((data (i + (j - 1) * char_width) % 256) >>> (8 - shift_value))) % 256)
      (fun g =>
        (carry_fold_spec data char_width shift_value i hcw (bit_count - 1) hm g).2.1
          j hj1 (by omega))
      (List.range char_width) (List.mem_range.mpr hi) (List.nodup_range char_width)
      (fun g b hbm hbi =>
        carry_outer_other data char_width shift_value i b hi
          (List.mem_range.mp hbm) hbi (bit_count - 1) hm g (i + j * char_width) ⟨j, rfl⟩)
      (fun _ => 0)
    rw [h, Nat.zero_or, hmm]
  · rw [e]
    have h := foldl_single_owner
      (fun nd i2 =>
        (jlist (bit_count - 1)).foldl (carryStep data char_width shift_value i2) nd)
      (i + (bit_count - 1) * char_width) i
      (fun v => (v |||
          ((data (i + (bit_count - 2) * char_width) % 256) >>> (8 - shift_value))) % 256)
      (fun g =>
        (carry_fold_spec data char_width shift_value i hcw (bit_count - 1) hm g).1)
      (List.range char_width) (List.mem_range.mpr hi) (List.nodup_range char_width)
      (fun g b hbm hbi =>
        carry_outer_other data char_width shift_value i b hi
          (List.mem_range.mp hbm) hbi (bit_count - 1) hm g
          (i + (bit_count - 1) * char_width) ⟨bit_count - 1, rfl⟩)
      (fun _ => 0)
    rw [h, Nat.zero_or]
    have hlt : (data (i + (bit_count - 2) * char_width) % 256) >>> (8 - shift_value)
        < 256 := by
      have h1 : data (i + (bit_count - 2) * char_width) % 256 < 256 :=
        Nat.mod_lt _ (by norm_num)
      have h2 : (data (i + (bit_count - 2) * char_width) % 256) >>> (8 - shift_value)
          ≤ data (i + (bit_count - 2) * char_width) % 256 := by
        rw [Nat.shiftRight_eq_div_pow]
        exact Nat.div_le_self _ _
      omega
    exact Nat.mod_eq_of_lt hlt

/-- Claim C6 (amended) witness: a concrete 1-column, 3-row carry at
shift 1, whose last row is the bare carry `255 >> 7 = 1`. -/
theorem shift_carry_rows_witness : shift_data (fun _ => 255) 1 1 3 2 = 1 :=
  (shift_carry_rows (fun _ => 255) 1 1 3 0 (by decide) (by decide) (by decide)
    (by decide)).2.2

end Nokia5110
